import Mathlib

/-!
Verification of the Optrand-PVSS core against its specification.

The Rust sources are shallowly embedded here:
* group elements of G1, G2 (and, additively rewritten, GT) live in abstract
  modules over the scalar field, mirroring the code's genericity over a
  pairing engine;
* fallible Rust functions return Except values;
* a surrounding Option layer models panics: a result of none means the Rust
  code panics (failed unwrap, out-of-bounds index, or integer underflow),
  while some r means it returns r normally.
-/

instance : Fact (Nat.Prime 5) := ⟨by norm_num⟩

/-- Error enumeration from src/modified_scrape/errors.rs (the variants the
    embedded functions can produce). -/
inductive PVSSError where
  | InsufficientEvaluationsError
  | DifferentPointsEvalsError
  | DualCodeError
  | MismatchedCommitmentsError (a b : Nat)
  | MismatchedEncryptionsError (a b : Nat)
  | TranscriptDifferentConfig (d1 d2 n1 n2 : Nat)
  | TranscriptDifferentCommitments
deriving DecidableEq, Repr

/-- Error enumeration from src/nizk/utils/errors.rs (the variant used by DLK). -/
inductive NIZKError where
  | DLKVerify
deriving DecidableEq, Repr

section Poly

variable {F : Type} [Field F] [DecidableEq F]
variable {G : Type} [AddCommGroup G] [Module F G] [DecidableEq G]

/-- Evaluation of a dense coefficient list (ark-poly DensePolynomial::evaluate),
    lowest coefficient first. -/
def evalPoly (coeffs : List F) (x : F) : F :=
  coeffs.foldr (fun a acc => a + x * acc) 0

/-- Field inversion as performed by ark-ff: Field::inverse returns None on zero;
    the callers below unwrap it, so none propagates as a panic. -/
def invOpt (x : F) : Option F :=
  if x = 0 then none else some x⁻¹

/-- Inner loop of ensure_degree (src/modified_scrape/poly.rs lines 43-50):
    starting from poly.evaluate(i), multiply by (i - j)^{-1} for every
    j in 1..=num with j different from i.  A zero difference makes the
    unwrap panic (none). -/
def dualWeightLoop (f : List F) (num i : Nat) : Option F :=
  (List.range num).foldlM
    (fun cperp j =>
      if i ≠ j + 1 then
        (invOpt ((i : F) - ((j + 1 : Nat) : F))).map (fun w => cperp * w)
      else
        some cperp)
    (evalPoly f (i : F))

/-- ensure_degree from src/modified_scrape/poly.rs lines 24-60.
    The random polynomial sampled inside the Rust function is passed in as the
    coefficient list f (the RNG is external to the embedding).  The second
    branch models the u64 subtraction num - degree - 2: when num - degree < 2
    the Rust expression underflows, which panics in debug builds (and makes
    Polynomial::rand attempt an astronomically large degree in release
    builds), hence none. -/
def ensure_degree (f : List F) (evaluations : List G) (degree : Nat) :
    Option (Except PVSSError Unit) :=
  let num := evaluations.length
  if num < degree then some (Except.error PVSSError.InsufficientEvaluationsError)
  else if num - degree < 2 then none
  else
    match (List.range num).foldlM
        (fun sum i =>
          (dualWeightLoop f num (i + 1)).map (fun c => sum + c • evaluations.getD i 0))
        (0 : G) with
    | none => none
    | some sum =>
        some (if sum = 0 then Except.ok () else Except.error PVSSError.DualCodeError)

/-- Inner loop of lagrange_interpolation_simple (poly.rs lines 80-86): the
    Lagrange coefficient for index j over the fixed points 1..t+1. -/
def simpleCoeffLoop (F : Type) [Field F] [DecidableEq F] (degree j : Nat) : Option F :=
  (List.range (degree + 1)).foldlM
    (fun prod k =>
      if j ≠ k then
        (invOpt (((k + 1 : Nat) : F) - ((j + 1 : Nat) : F))).map
          (fun w => prod * (((k + 1 : Nat) : F) * w))
      else
        some prod)
    (1 : F)

/-- lagrange_interpolation_simple from src/modified_scrape/poly.rs lines 64-93. -/
def lagrange_interpolation_simple (evals : List G) (degree : Nat) :
    Option (Except PVSSError G) :=
  if evals.length < degree + 1 then
    some (Except.error PVSSError.InsufficientEvaluationsError)
  else
    match (List.range (degree + 1)).foldlM
        (fun sum j =>
          (simpleCoeffLoop F degree j).map (fun prod => sum + prod • evals.getD j 0))
        (0 : G) with
    | none => none
    | some sum => some (Except.ok sum)

/-- Inner loop of the points-based interpolation variants (poly.rs): the
    Lagrange coefficient for index j over caller-chosen points. -/
def pointsCoeffLoop (points : List F) (degree j : Nat) : Option F :=
  (List.range (degree + 1)).foldlM
    (fun prod k =>
      if j ≠ k then
        (invOpt (points.getD k 0 - points.getD j 0)).map
          (fun w => prod * (points.getD k 0 * w))
      else
        some prod)
    (1 : F)

/-- lagrange_interpolation_g1 from src/modified_scrape/poly.rs lines 98-132
    (evaluations in G1, caller-chosen points). -/
def lagrange_interpolation_g1 (evals : List G) (points : List F) (degree : Nat) :
    Option (Except PVSSError G) :=
  if evals.length < degree + 1 then
    some (Except.error PVSSError.InsufficientEvaluationsError)
  else if evals.length ≠ points.length then
    some (Except.error PVSSError.DifferentPointsEvalsError)
  else
    match (List.range (degree + 1)).foldlM
        (fun sum j =>
          (pointsCoeffLoop points degree j).map (fun prod => sum + prod • evals.getD j 0))
        (0 : G) with
    | none => none
    | some sum => some (Except.ok sum)

/-- lagrange_interpolation_g2 from src/modified_scrape/poly.rs lines 137-171
    (identical body to the G1 variant, over the commitment group). -/
def lagrange_interpolation_g2 (evals : List G) (points : List F) (degree : Nat) :
    Option (Except PVSSError G) :=
  if evals.length < degree + 1 then
    some (Except.error PVSSError.InsufficientEvaluationsError)
  else if evals.length ≠ points.length then
    some (Except.error PVSSError.DifferentPointsEvalsError)
  else
    match (List.range (degree + 1)).foldlM
        (fun sum j =>
          (pointsCoeffLoop points degree j).map (fun prod => sum + prod • evals.getD j 0))
        (0 : G) with
    | none => none
    | some sum => some (Except.ok sum)

/-- Inner loop of lagrange_interpolation_gt: points are u64 values cast into
    the scalar field. -/
def gtCoeffLoop (F : Type) [Field F] [DecidableEq F] (points : List Nat) (degree j : Nat) :
    Option F :=
  (List.range (degree + 1)).foldlM
    (fun prod k =>
      if j ≠ k then
        (invOpt (((points.getD k 0 : Nat) : F) - ((points.getD j 0 : Nat) : F))).map
          (fun w => prod * (((points.getD k 0 : Nat) : F) * w))
      else
        some prod)
    (1 : F)

/-- lagrange_interpolation_gt from src/modified_scrape/poly.rs lines 176-211.
    GT is a multiplicative group of the same prime order as the scalar field;
    it is embedded additively here (its product is + and pow by a scalar is
    scalar multiplication), which is the same group written additively. -/
def lagrange_interpolation_gt (evals : List G) (points : List Nat) (degree : Nat) :
    Option (Except PVSSError G) :=
  if evals.length < degree + 1 then
    some (Except.error PVSSError.InsufficientEvaluationsError)
  else if evals.length ≠ points.length then
    some (Except.error PVSSError.DifferentPointsEvalsError)
  else
    match (List.range (degree + 1)).foldlM
        (fun result j =>
          (gtCoeffLoop F points degree j).map (fun prod => result + prod • evals.getD j 0))
        (0 : G) with
    | none => none
    | some result => some (Except.ok result)

end Poly

section Decryption

variable {F : Type} [Field F] [DecidableEq F]
variable {G : Type} [AddCommGroup G] [Module F G] [DecidableEq G]

/-- DecryptedShare from src/modified_scrape/decryption.rs. -/
structure DecryptedShare (G : Type) where
  dec : G
  origin : Nat
deriving DecidableEq, Repr

/-- DecryptedShare::generate from src/modified_scrape/decryption.rs lines 19-24:
    dec := enc[my_id] * sk^{-1}.  The slice index panics when my_id is out of
    bounds and the unwrap panics when sk has no inverse (sk = 0); both are
    modelled by none. -/
def DecryptedShare.generate (enc : List G) (sk : F) (my_id : Nat) :
    Option (DecryptedShare G) :=
  match enc.get? my_id with
  | none => none
  | some e => (invOpt sk).map (fun w => { dec := w • e, origin := my_id })

end Decryption

section DLK

variable {F : Type} [Field F] [DecidableEq F]
variable {G : Type} [AddCommGroup G] [Module F G] [DecidableEq G]

/-- The persona bytes b"DLKNIZK" from src/nizk/dlk/mod.rs line 15. -/
def dlkPersona : List Nat := [68, 76, 75, 78, 73, 90, 75]

/-- DLKProof::prove from src/nizk/dlk/mod.rs lines 56-87, generic over the
    curve; the canonical point serializer ser and the hash-to-field hash are
    the external collaborators of the code and are parameters here.  The
    sampled nonce r is passed in (the RNG is external).  The proof is
    (commitment to nonce, challenge, response). -/
def DLKProof.prove (ser : G → List Nat) (hash : List Nat → List Nat → F)
    (g : G) (w r : F) : G × F × F :=
  let g_r := r • g
  let c := hash dlkPersona (ser g ++ ser g_r)
  (g_r, c, r - w * c)

/-- DLKProof::verify from src/nizk/dlk/mod.rs lines 90-121. -/
def DLKProof.verify (ser : G → List Nat) (hash : List Nat → List Nat → F)
    (g : G) (stmnt : G) (pf : G × F × F) : Except NIZKError Unit :=
  let c := hash dlkPersona (ser g ++ ser pf.1)
  let check := pf.2.2 • g + c • stmnt
  if check ≠ pf.1 ∨ c ≠ pf.2.1 then Except.error NIZKError.DLKVerify
  else Except.ok ()

/-- Modelled from the spec: the specification prescribes the challenge
    c = H(persona_DLK, g, Y, R) with the statement Y between the generator
    and the nonce commitment in the hash input.  This definition follows the
    spec wording and is compared against the challenge the source computes. -/
def specDLKChallenge (ser : G → List Nat) (hash : List Nat → List Nat → F)
    (g Y R : G) : F :=
  hash dlkPersona (ser g ++ ser Y ++ ser R)

end DLK

section Share

variable {F : Type} [Field F] [DecidableEq F]
variable {G1 : Type} [AddCommGroup G1] [DecidableEq G1]
variable {G2 : Type} [AddCommGroup G2] [DecidableEq G2]
variable {Sig : Type} [DecidableEq Sig]

/-- DecompProof from src/modified_scrape/decomp.rs lines 33-37: a DLK proof
    over G2 together with the statement gs. -/
structure DecompProof (F G : Type) where
  proof : G × F × F
  gs : G
deriving DecidableEq, Repr

/-- SignedProof from src/modified_scrape/share.rs lines 21-28. -/
structure SignedProof (F G Sig : Type) where
  decomp_proof : DecompProof F G
  signature_on_decomp : Sig
deriving DecidableEq, Repr

/-- Modelled from the spec: src/modified_scrape/pvss.rs (struct PVSSCore) is
    not under src, only its declarations, callers and tests are.  Per the
    spec data model, a PVSSCore is a commitment vector comms over G2 and an
    encryption vector encs over G1, both of length n. -/
structure PVSSCore (G1 G2 : Type) where
  comms : List G2
  encs : List G1
deriving DecidableEq, Repr

/-- Modelled from the spec: PVSSCore::empty(n) is n zero elements in each
    group (witnessed by the expected value in share.rs's
    test_create_empty_aggregated_pvss_share). -/
def PVSSCore.empty (n : Nat) : PVSSCore G1 G2 :=
  { comms := List.replicate n 0, encs := List.replicate n 0 }

/-- Modelled from the spec: PVSSCore::aggregate is the component-wise
    group-operation sum of the two cores; it is Result-returning, failing on
    mismatched vector lengths. -/
def PVSSCore.aggregate (a b : PVSSCore G1 G2) : Except PVSSError (PVSSCore G1 G2) :=
  if a.comms.length ≠ b.comms.length then
    Except.error (PVSSError.MismatchedCommitmentsError a.comms.length b.comms.length)
  else if a.encs.length ≠ b.encs.length then
    Except.error (PVSSError.MismatchedEncryptionsError a.encs.length b.encs.length)
  else
    Except.ok
      { comms := List.zipWith (· + ·) a.comms b.comms,
        encs := List.zipWith (· + ·) a.encs b.encs }

/-- PVSSAggregatedShare from src/modified_scrape/share.rs lines 58-72.  The
    contributions BTreeMap from participant id to SignedProof is embedded as
    an association list (BTreeMap lookups become List.lookup). -/
structure PVSSAggregatedShare (F G1 G2 Sig : Type) where
  num_participants : Nat
  degree : Nat
  pvss_core : PVSSCore G1 G2
  contributions : List (Nat × SignedProof F G2 Sig)
deriving DecidableEq, Repr

/-- The contribution merge performed by aggregate (share.rs lines 110-132)
    for one id: both sides present keeps self's signed proof, one side
    present carries that entry over. -/
def mergeContrib (a b : List (Nat × SignedProof F G2 Sig)) (i : Nat) :
    Option (SignedProof F G2 Sig) :=
  match a.lookup i, b.lookup i with
  | some pa, some _ =>
      some { decomp_proof := pa.decomp_proof,
             signature_on_decomp := pa.signature_on_decomp }
  | some pa, none => some pa
  | none, some pb => some pb
  | none, none => none

/-- One iteration of the contribution-merging closure inside aggregate
    (share.rs lines 112-127), for participant id i. -/
def aggregateStep (a b : List (Nat × SignedProof F G2 Sig)) (i : Nat) :
    Except PVSSError (Option (Nat × SignedProof F G2 Sig)) :=
  match a.lookup i, b.lookup i with
  | some pa, some pb =>
      if pa.decomp_proof.gs ≠ pb.decomp_proof.gs then
        Except.error PVSSError.TranscriptDifferentCommitments
      else
        Except.ok (some (i, SignedProof.mk pa.decomp_proof pa.signature_on_decomp))
  | some pa, none => Except.ok (some (i, pa))
  | none, some pb => Except.ok (some (i, pb))
  | none, none => Except.ok none

/-- The contributions computation of aggregate (share.rs lines 110-132):
    map aggregateStep over the ids 0..n, short-circuiting on its first error
    (collect over Result), then keep the present entries (filter_map). -/
def aggregateContribs (a b : List (Nat × SignedProof F G2 Sig)) (n : Nat) :
    Except PVSSError (List (Nat × SignedProof F G2 Sig)) := do
  let entries ← (List.range n).mapM (aggregateStep a b)
  Except.ok (entries.filterMap id)

/-- Whether the two maps carry id i with different gs values (the condition
    making aggregateStep fail). -/
def gsConflict (a b : List (Nat × SignedProof F G2 Sig)) (i : Nat) : Bool :=
  match a.lookup i, b.lookup i with
  | some pa, some pb => decide (pa.decomp_proof.gs ≠ pb.decomp_proof.gs)
  | _, _ => false

/-- PVSSAggregatedShare::aggregate from src/modified_scrape/share.rs lines
    98-143.  The config check comes first, then the contribution merge
    (short-circuiting on its first error), then the core aggregation whose
    Result the source unwraps: a core error is a panic, hence none. -/
def PVSSAggregatedShare.aggregate (self other : PVSSAggregatedShare F G1 G2 Sig) :
    Option (Except PVSSError (PVSSAggregatedShare F G1 G2 Sig)) :=
  if self.degree ≠ other.degree ∨ self.num_participants ≠ other.num_participants then
    some (Except.error (PVSSError.TranscriptDifferentConfig
      self.degree other.degree self.num_participants other.num_participants))
  else
    match aggregateContribs self.contributions other.contributions self.num_participants with
    | Except.error e => some (Except.error e)
    | Except.ok contribs =>
        match self.pvss_core.aggregate other.pvss_core with
        | Except.error _ => none
        | Except.ok core =>
            some (Except.ok
              { num_participants := self.num_participants,
                degree := self.degree,
                pvss_core := core,
                contributions := contribs })

/-- The weight of a participant id in a contributions map.  The map of
    share.rs stores one SignedProof per id and no weight field, so the weight
    of an id is its multiplicity in the map: 1 when present, 0 when absent. -/
def contribWeight (m : List (Nat × SignedProof F G2 Sig)) (i : Nat) : Nat :=
  if (m.lookup i).isSome then 1 else 0

end Share

/-! ### Generic fold bridging lemmas -/

section FoldHelpers

variable {α β : Type}

theorem foldlM_eq_foldl_of_some (f : α → β → Option α) (g : α → β → α) :
    ∀ (l : List β), (∀ a b, b ∈ l → f a b = some (g a b)) → ∀ a : α,
      l.foldlM f a = some (l.foldl g a)
  | [], _, _ => rfl
  | x :: xs, h, a => by
      have ih := foldlM_eq_foldl_of_some f g xs
        (fun a b hb => h a b (List.mem_cons_of_mem x hb)) (g a x)
      rw [List.foldlM_cons, h a x (List.mem_cons_self x xs), List.foldl_cons]
      exact ih

theorem foldl_ite_mul_range {M : Type} [CommMonoid M]
    (c : ℕ → Prop) [DecidablePred c] (g : ℕ → M) :
    ∀ (n : ℕ) (a : M),
      (List.range n).foldl (fun p k => if c k then p * g k else p) a
        = a * ∏ k ∈ (Finset.range n).filter c, g k
  | 0, a => by simp
  | n + 1, a => by
      rw [List.range_succ, List.foldl_append, foldl_ite_mul_range c g n a]
      by_cases hc : c n
      · have hn : n ∉ (Finset.range n).filter c := by simp
        simp only [List.foldl_cons, List.foldl_nil, if_pos hc, Finset.range_succ,
          Finset.filter_insert, if_pos hc, Finset.prod_insert hn]
        rw [mul_comm (g n), mul_assoc]
      · simp only [List.foldl_cons, List.foldl_nil, if_neg hc, Finset.range_succ,
          Finset.filter_insert, if_neg hc]

theorem foldl_add_range {M : Type} [AddCommMonoid M] (g : ℕ → M) :
    ∀ (n : ℕ) (a : M),
      (List.range n).foldl (fun s k => s + g k) a = a + ∑ k ∈ Finset.range n, g k
  | 0, a => by simp
  | n + 1, a => by
      rw [List.range_succ, List.foldl_append, foldl_add_range g n a]
      simp only [List.foldl_cons, List.foldl_nil, Finset.sum_range_succ, add_assoc]

theorem lookup_filterMap_keyed {β : Type} (h : ℕ → Option β) :
    ∀ (l : List ℕ) (i : ℕ),
      (l.filterMap (fun j => (h j).map (fun v => (j, v)))).lookup i
        = if i ∈ l then h i else none
  | [], i => by simp
  | j :: js, i => by
      rcases hj : h j with _ | v
      · rw [List.filterMap_cons]
        simp only [hj, Option.map_none']
        rw [lookup_filterMap_keyed h js i]
        by_cases hij : i = j
        · subst hij
          by_cases hmem : i ∈ js <;> simp [hmem, hj]
        · simp [hij]
      · rw [List.filterMap_cons]
        simp only [hj, Option.map_some']
        by_cases hij : i = j
        · subst hij
          simp [List.lookup_cons, hj]
        · have : (i == j) = false := by simp [hij]
          simp [List.lookup_cons, this, lookup_filterMap_keyed h js i, hij]

end FoldHelpers

/-! ### Claim C1: the DLK Fiat-Shamir challenge -/

section C1

variable {F : Type} [Field F] [DecidableEq F]
variable {G : Type} [AddCommGroup G] [Module F G] [DecidableEq G]

/-- Concrete serializer used to instantiate the external collaborators in
    counterexamples and witnesses. -/
def serZ (x : ZMod 5) : List Nat := [x.val]

/-- Concrete hash-to-field used to instantiate the external collaborators in
    counterexamples and witnesses. -/
def hashLen (_persona m : List Nat) : ZMod 5 := (m.length : ZMod 5)

/-- C1 counterexample: with a concrete serializer and hash-to-field, the
    challenge computed by DLKProof::prove for generator g = 1, witness w = 1
    (statement Y = g·w) and nonce r = 2 differs from the hash of
    (g, Y, R) prescribed by the spec: the code hashes only g and R. -/
theorem dlk_challenge_omits_statement_cex :
    (DLKProof.prove serZ hashLen (1 : ZMod 5) 1 2).2.1
      ≠ specDLKChallenge serZ hashLen (1 : ZMod 5)
          ((1 : ZMod 5) • (1 : ZMod 5)) ((2 : ZMod 5) • (1 : ZMod 5)) := by
  decide

/-- C1 (amended): the Fiat-Shamir challenge computed by DLKProof::prove, and
    the one recomputed by DLKProof::verify on an accepted proof, equal the
    hash-to-field under persona DLKNIZK of the serializations of the
    generator g and the nonce commitment R only; the statement Y is not part
    of the hash input (verify recomputes the same value for every Y). -/
theorem dlk_challenge_hashes_g_and_R (ser : G → List Nat)
    (hash : List Nat → List Nat → F) (g : G) (w r : F) (Y : G) (pf : G × F × F) :
    (DLKProof.prove ser hash g w r).2.1 = hash dlkPersona (ser g ++ ser (r • g))
    ∧ (DLKProof.verify ser hash g Y pf = Except.ok () →
        pf.2.1 = hash dlkPersona (ser g ++ ser pf.1)) := by
  constructor
  · rfl
  · intro hacc
    unfold DLKProof.verify at hacc
    by_cases hcond : (pf.2.2 • g + hash dlkPersona (ser g ++ ser pf.1) • Y ≠ pf.1
        ∨ hash dlkPersona (ser g ++ ser pf.1) ≠ pf.2.1)
    · simp only [if_pos hcond] at hacc
      cases hacc
    · push_neg at hcond
      exact hcond.2.symm

/-- C1 witness: the amended statement applied at a concrete accepted proof. -/
theorem dlk_challenge_hashes_g_and_R_witness :
    (DLKProof.prove serZ hashLen (1 : ZMod 5) 1 2).2.1
      = hashLen dlkPersona (serZ 1 ++ serZ ((2 : ZMod 5) • (1 : ZMod 5)))
    ∧ (DLKProof.prove serZ hashLen (1 : ZMod 5) 1 2).2.1
      = hashLen dlkPersona
          (serZ 1 ++ serZ ((DLKProof.prove serZ hashLen (1 : ZMod 5) 1 2).1)) :=
  ⟨(dlk_challenge_hashes_g_and_R serZ hashLen (1 : ZMod 5) 1 2
      ((1 : ZMod 5) • (1 : ZMod 5)) (DLKProof.prove serZ hashLen (1 : ZMod 5) 1 2)).1,
   (dlk_challenge_hashes_g_and_R serZ hashLen (1 : ZMod 5) 1 2
      ((1 : ZMod 5) • (1 : ZMod 5)) (DLKProof.prove serZ hashLen (1 : ZMod 5) 1 2)).2
     rfl⟩

end C1

/-! ### Claim C7: ensure_degree panics on short vectors -/

/-- C7: at evaluations length 3 and degree 3 (so degree is not greater than
    the length, but length is less than degree + 2) the u64 expression
    num - degree - 2 inside ensure_degree underflows: the function panics
    instead of returning a Result.  The embedding records the panic as none. -/
theorem ensure_degree_underflow_panic :
    ensure_degree (F := ZMod 5) (G := ZMod 5) [] [0, 0, 0] 3 = none := rfl

/-! ### Claim C8: error returns of the interpolation variants -/

section C8

variable {F : Type} [Field F] [DecidableEq F]
variable {G : Type} [AddCommGroup G] [Module F G] [DecidableEq G]

/-- C8: each Lagrange interpolation variant reports
    InsufficientEvaluationsError when given fewer than t+1 evaluations, and
    each points-taking variant reports DifferentPointsEvalsError when the
    points and evaluations lengths disagree; the insufficient-evaluations
    check runs first (it fires even when the lengths also disagree). -/
theorem lagrange_interpolation_error_checks
    (evals : List G) (points : List F) (pointsNat : List Nat) (t : Nat) :
    (evals.length < t + 1 →
      lagrange_interpolation_simple (F := F) evals t
          = some (Except.error PVSSError.InsufficientEvaluationsError)
        ∧ lagrange_interpolation_g1 evals points t
          = some (Except.error PVSSError.InsufficientEvaluationsError)
        ∧ lagrange_interpolation_g2 evals points t
          = some (Except.error PVSSError.InsufficientEvaluationsError)
        ∧ lagrange_interpolation_gt (F := F) evals pointsNat t
          = some (Except.error PVSSError.InsufficientEvaluationsError))
    ∧ (t + 1 ≤ evals.length → evals.length ≠ points.length →
        lagrange_interpolation_g1 evals points t
          = some (Except.error PVSSError.DifferentPointsEvalsError)
        ∧ lagrange_interpolation_g2 evals points t
          = some (Except.error PVSSError.DifferentPointsEvalsError))
    ∧ (t + 1 ≤ evals.length → evals.length ≠ pointsNat.length →
        lagrange_interpolation_gt (F := F) evals pointsNat t
          = some (Except.error PVSSError.DifferentPointsEvalsError)) := by
  refine ⟨fun hshort => ?_, fun hlong hne => ?_, fun hlong hne => ?_⟩
  · exact ⟨by rw [lagrange_interpolation_simple, if_pos hshort],
      by rw [lagrange_interpolation_g1, if_pos hshort],
      by rw [lagrange_interpolation_g2, if_pos hshort],
      by rw [lagrange_interpolation_gt, if_pos hshort]⟩
  · have hnl : ¬ evals.length < t + 1 := by omega
    exact ⟨by rw [lagrange_interpolation_g1, if_neg hnl, if_pos hne],
      by rw [lagrange_interpolation_g2, if_neg hnl, if_pos hne]⟩
  · have hnl : ¬ evals.length < t + 1 := by omega
    rw [lagrange_interpolation_gt, if_neg hnl, if_pos hne]

/-- C8 witness: the error checks evaluated at concrete short and mismatched
    inputs. -/
theorem lagrange_interpolation_error_checks_witness :
    (lagrange_interpolation_simple (F := ZMod 5) (G := ZMod 5) [0] 1
        = some (Except.error PVSSError.InsufficientEvaluationsError))
    ∧ (lagrange_interpolation_g2 (G := ZMod 5) [0, 0] [(1 : ZMod 5), 2, 3] 1
        = some (Except.error PVSSError.DifferentPointsEvalsError)) :=
  ⟨((lagrange_interpolation_error_checks [(0 : ZMod 5)] ([] : List (ZMod 5)) [] 1).1
      (by decide)).1,
   ((lagrange_interpolation_error_checks [(0 : ZMod 5), 0] [(1 : ZMod 5), 2, 3] [] 1).2.1
      (by decide) (by decide)).2⟩

end C8

/-! ### Claim C10: DecryptedShare::generate -/

section C10

variable {F : Type} [Field F] [DecidableEq F]
variable {G : Type} [AddCommGroup G] [Module F G] [DecidableEq G]

/-- C10: DecryptedShare::generate panics (none) when my_id is out of bounds
    of enc, panics when sk is the zero scalar, and under the precondition
    sk different from 0 and my_id within bounds returns
    dec = enc[my_id] scaled by the inverse of sk, with origin = my_id. -/
theorem decrypted_share_generate_spec (enc : List G) (sk : F) (my_id : Nat) :
    (enc.length ≤ my_id → DecryptedShare.generate enc sk my_id = none)
    ∧ (sk = 0 → DecryptedShare.generate enc sk my_id = none)
    ∧ (sk ≠ 0 → ∀ h : my_id < enc.length,
        DecryptedShare.generate enc sk my_id
          = some { dec := sk⁻¹ • enc.get ⟨my_id, h⟩, origin := my_id }) := by
  refine ⟨fun hoob => ?_, fun hz => ?_, fun hnz h => ?_⟩
  · rw [DecryptedShare.generate, List.get?_eq_none.mpr hoob]
  · rw [DecryptedShare.generate]
    rcases henc : enc.get? my_id with _ | e
    · rfl
    · simp [invOpt, hz]
  · rw [DecryptedShare.generate, List.get?_eq_get h]
    simp [invOpt, hnz]

/-- C10 witness: the three cases of the specification at concrete inputs. -/
theorem decrypted_share_generate_spec_witness :
    (DecryptedShare.generate ([(3 : ZMod 5)]) (2 : ZMod 5) 1 = none)
    ∧ (DecryptedShare.generate ([(3 : ZMod 5)]) (0 : ZMod 5) 0 = none)
    ∧ (DecryptedShare.generate ([(3 : ZMod 5)]) (2 : ZMod 5) 0
        = some { dec := (2 : ZMod 5)⁻¹ • (3 : ZMod 5), origin := 0 }) :=
  ⟨(decrypted_share_generate_spec [(3 : ZMod 5)] 2 1).1 (by decide),
   (decrypted_share_generate_spec [(3 : ZMod 5)] 0 0).2.1 rfl,
   (decrypted_share_generate_spec [(3 : ZMod 5)] 2 0).2.2 (by decide) (by decide)⟩

end C10

/-! ### Aggregation lemmas and claims C2, C4, C5, C6 -/

section ShareProofs

variable {F : Type} [Field F] [DecidableEq F]
variable {G1 : Type} [AddCommGroup G1] [DecidableEq G1]
variable {G2 : Type} [AddCommGroup G2] [DecidableEq G2]
variable {Sig : Type} [DecidableEq Sig]

theorem aggregateStep_of_not_conflict (a b : List (Nat × SignedProof F G2 Sig)) (i : Nat)
    (h : gsConflict a b i = false) :
    aggregateStep a b i = Except.ok ((mergeContrib a b i).map (fun v => (i, v))) := by
  unfold aggregateStep mergeContrib
  unfold gsConflict at h
  rcases ha : a.lookup i with _ | pa <;> rcases hb : b.lookup i with _ | pb <;>
    simp only [ha, hb] at h ⊢
  · rfl
  · rfl
  · rfl
  · rw [if_neg (by simpa using h)]
    rfl

theorem aggregateStep_of_conflict (a b : List (Nat × SignedProof F G2 Sig)) (i : Nat)
    (h : gsConflict a b i = true) :
    aggregateStep a b i = Except.error PVSSError.TranscriptDifferentCommitments := by
  unfold aggregateStep
  unfold gsConflict at h
  rcases ha : a.lookup i with _ | pa <;> rcases hb : b.lookup i with _ | pb <;>
    simp only [ha, hb] at h ⊢
  · cases h
  · cases h
  · cases h
  · rw [if_pos (by simpa using h)]

theorem mapM_aggregateStep_of_no_conflict (a b : List (Nat × SignedProof F G2 Sig)) :
    ∀ (l : List Nat), (∀ i ∈ l, gsConflict a b i = false) →
      l.mapM (aggregateStep a b)
        = Except.ok (l.map (fun i => (mergeContrib a b i).map (fun v => (i, v))))
  | [], _ => rfl
  | i :: is, h => by
      rw [List.mapM_cons, aggregateStep_of_not_conflict a b i (h i (List.mem_cons_self i is)),
        mapM_aggregateStep_of_no_conflict a b is
          (fun j hj => h j (List.mem_cons_of_mem i hj))]
      rfl

theorem mapM_aggregateStep_of_conflict (a b : List (Nat × SignedProof F G2 Sig)) :
    ∀ (l : List Nat), (∃ i ∈ l, gsConflict a b i = true) →
      l.mapM (aggregateStep a b)
        = Except.error PVSSError.TranscriptDifferentCommitments
  | [], h => by simp at h
  | i :: is, h => by
      rcases h with ⟨j, hj, hconf⟩
      rw [List.mapM_cons]
      rcases hi : gsConflict a b i with _ | _
      · rw [aggregateStep_of_not_conflict a b i hi]
        have hjis : j ∈ is := by
          rcases List.mem_cons.mp hj with rfl | hmem
          · rw [hi] at hconf; cases hconf
          · exact hmem
        rw [mapM_aggregateStep_of_conflict a b is ⟨j, hjis, hconf⟩]
        rfl
      · rw [aggregateStep_of_conflict a b i hi]
        rfl

theorem aggregateContribs_of_no_conflict (a b : List (Nat × SignedProof F G2 Sig)) (n : Nat)
    (h : ∀ i ∈ List.range n, gsConflict a b i = false) :
    aggregateContribs a b n
      = Except.ok ((List.range n).filterMap
          (fun i => (mergeContrib a b i).map (fun v => (i, v)))) := by
  unfold aggregateContribs
  rw [mapM_aggregateStep_of_no_conflict a b _ h]
  show Except.ok (List.filterMap id (List.map _ _)) = _
  rw [List.filterMap_map]
  rfl

theorem aggregateContribs_of_conflict (a b : List (Nat × SignedProof F G2 Sig)) (n : Nat)
    (h : ∃ i ∈ List.range n, gsConflict a b i = true) :
    aggregateContribs a b n = Except.error PVSSError.TranscriptDifferentCommitments := by
  unfold aggregateContribs
  rw [mapM_aggregateStep_of_conflict a b _ h]
  rfl

theorem aggregateContribs_lookup (a b : List (Nat × SignedProof F G2 Sig)) (n : Nat)
    (l : List (Nat × SignedProof F G2 Sig))
    (hok : aggregateContribs a b n = Except.ok l) (i : Nat) (hi : i < n) :
    l.lookup i = mergeContrib a b i := by
  by_cases hconf : ∃ j ∈ List.range n, gsConflict a b j = true
  · rw [aggregateContribs_of_conflict a b n hconf] at hok
    cases hok
  · push_neg at hconf
    have hno : ∀ j ∈ List.range n, gsConflict a b j = false := by
      intro j hj
      have := hconf j hj
      simpa using this
    rw [aggregateContribs_of_no_conflict a b n hno] at hok
    have hl := Except.ok.inj hok
    subst hl
    rw [lookup_filterMap_keyed (mergeContrib a b) (List.range n) i,
      if_pos (List.mem_range.mpr hi)]

theorem aggregate_ok_elim (A B R : PVSSAggregatedShare F G1 G2 Sig)
    (hok : A.aggregate B = some (Except.ok R)) :
    A.degree = B.degree ∧ A.num_participants = B.num_participants
    ∧ R.num_participants = A.num_participants ∧ R.degree = A.degree
    ∧ aggregateContribs A.contributions B.contributions A.num_participants
        = Except.ok R.contributions
    ∧ A.pvss_core.aggregate B.pvss_core = Except.ok R.pvss_core := by
  unfold PVSSAggregatedShare.aggregate at hok
  by_cases hcfg : A.degree ≠ B.degree ∨ A.num_participants ≠ B.num_participants
  · rw [if_pos hcfg] at hok
    cases Option.some.inj hok
  · rw [if_neg hcfg] at hok
    push_neg at hcfg
    rcases hc : aggregateContribs A.contributions B.contributions A.num_participants
        with e | contribs
    · rw [hc] at hok
      cases Option.some.inj hok
    · rw [hc] at hok
      rcases hcore : A.pvss_core.aggregate B.pvss_core with e | core
      · rw [hcore] at hok
        cases hok
      · rw [hcore] at hok
        have hR := Except.ok.inj (Option.some.inj hok)
        subst hR
        exact ⟨hcfg.1, hcfg.2, rfl, rfl, rfl, rfl⟩
end ShareProofs

section ShareClaims

variable {F : Type} [Field F] [DecidableEq F]
variable {G1 : Type} [AddCommGroup G1] [DecidableEq G1]
variable {G2 : Type} [AddCommGroup G2] [DecidableEq G2]
variable {Sig : Type} [DecidableEq Sig]

/-- C2: for two aggregated shares under the same (t, n) with disjoint
    contribution sets and well-formed cores, aggregate succeeds; the
    resulting pvss_core is the component-wise group sum of the two cores,
    and for every participant id i below n the contribution weight (the
    multiplicity of i in the contributions map, which stores no weight
    field) is the sum of the two sides' weights, absent ids counting as
    zero. -/
theorem aggregate_homomorphism (A B : PVSSAggregatedShare F G1 G2 Sig)
    (hdeg : A.degree = B.degree) (hnum : A.num_participants = B.num_participants)
    (hdisj : ∀ i, (A.contributions.lookup i).isSome →
      (B.contributions.lookup i).isSome → False)
    (hcomms : A.pvss_core.comms.length = B.pvss_core.comms.length)
    (hencs : A.pvss_core.encs.length = B.pvss_core.encs.length) :
    ∃ R, A.aggregate B = some (Except.ok R)
      ∧ R.pvss_core.comms = List.zipWith (· + ·) A.pvss_core.comms B.pvss_core.comms
      ∧ R.pvss_core.encs = List.zipWith (· + ·) A.pvss_core.encs B.pvss_core.encs
      ∧ ∀ i, i < A.num_participants →
          contribWeight R.contributions i
            = contribWeight A.contributions i + contribWeight B.contributions i := by
  have hno : ∀ i ∈ List.range A.num_participants,
      gsConflict A.contributions B.contributions i = false := by
    intro i _
    unfold gsConflict
    rcases ha : A.contributions.lookup i with _ | pa <;>
      rcases hb : B.contributions.lookup i with _ | pb <;> simp
    exact (hdisj i (by rw [ha]; rfl) (by rw [hb]; rfl)).elim
  refine ⟨{ num_participants := A.num_participants, degree := A.degree,
            pvss_core :=
              { comms := List.zipWith (· + ·) A.pvss_core.comms B.pvss_core.comms,
                encs := List.zipWith (· + ·) A.pvss_core.encs B.pvss_core.encs },
            contributions := (List.range A.num_participants).filterMap
              (fun i => (mergeContrib A.contributions B.contributions i).map
                (fun v => (i, v))) },
          ?_, rfl, rfl, ?_⟩
  · unfold PVSSAggregatedShare.aggregate
    rw [if_neg (by push_neg; exact ⟨hdeg, hnum⟩),
      aggregateContribs_of_no_conflict _ _ _ hno]
    have hcore : A.pvss_core.aggregate B.pvss_core
        = Except.ok
            { comms := List.zipWith (· + ·) A.pvss_core.comms B.pvss_core.comms,
              encs := List.zipWith (· + ·) A.pvss_core.encs B.pvss_core.encs } := by
      unfold PVSSCore.aggregate
      rw [if_neg (by simpa using hcomms), if_neg (by simpa using hencs)]
    rw [hcore]
  · intro i hi
    unfold contribWeight
    rw [lookup_filterMap_keyed, if_pos (List.mem_range.mpr hi)]
    unfold mergeContrib
    rcases ha : A.contributions.lookup i with _ | pa <;>
      rcases hb : B.contributions.lookup i with _ | pb <;> simp
    exact (hdisj i (by rw [ha]; rfl) (by rw [hb]; rfl)).elim

/-- C4: when a participant id i below n has a contribution in both A and B,
    aggregate returns TranscriptDifferentCommitments if the two signed
    proofs carry different gs, and on success the resulting contribution for
    i is A's signed proof. -/
theorem aggregate_common_id_gs (A B : PVSSAggregatedShare F G1 G2 Sig) (i : Nat)
    (pa pb : SignedProof F G2 Sig)
    (hi : i < A.num_participants)
    (hdeg : A.degree = B.degree) (hnum : A.num_participants = B.num_participants)
    (ha : A.contributions.lookup i = some pa)
    (hb : B.contributions.lookup i = some pb) :
    (pa.decomp_proof.gs ≠ pb.decomp_proof.gs →
      A.aggregate B = some (Except.error PVSSError.TranscriptDifferentCommitments))
    ∧ ∀ R, A.aggregate B = some (Except.ok R) →
        R.contributions.lookup i = some pa := by
  constructor
  · intro hgs
    unfold PVSSAggregatedShare.aggregate
    rw [if_neg (by push_neg; exact ⟨hdeg, hnum⟩)]
    have hconf : gsConflict A.contributions B.contributions i = true := by
      unfold gsConflict
      rw [ha, hb]
      simpa using hgs
    rw [aggregateContribs_of_conflict _ _ _ ⟨i, List.mem_range.mpr hi, hconf⟩]
  · intro R hok
    obtain ⟨-, -, -, -, hc, -⟩ := aggregate_ok_elim A B R hok
    rw [aggregateContribs_lookup _ _ _ _ hc i hi]
    unfold mergeContrib
    rw [ha, hb]

/-- C6 (amended): every participant id i below num_participants that has a
    contribution in at least one of A and B appears in the contributions of
    a successful A.aggregate(B): a sole entry is carried over unchanged, and
    an id present on both sides keeps A's signed proof.  (Ids at or above
    num_participants are dropped: see the counterexample.) -/
theorem aggregate_keeps_ids_below_n (A B R : PVSSAggregatedShare F G1 G2 Sig)
    (i : Nat) (hi : i < A.num_participants)
    (hok : A.aggregate B = some (Except.ok R)) :
    R.contributions.lookup i =
      match A.contributions.lookup i, B.contributions.lookup i with
      | some pa, some _ =>
          some { decomp_proof := pa.decomp_proof,
                 signature_on_decomp := pa.signature_on_decomp }
      | some pa, none => some pa
      | none, some pb => some pb
      | none, none => none := by
  obtain ⟨-, -, -, -, hc, -⟩ := aggregate_ok_elim A B R hok
  rw [aggregateContribs_lookup _ _ _ _ hc i hi]
  rfl

/-- C5 (amended): aggregation is commutative for shares under the same
    (t, n) provided every id present in both contribution maps carries the
    same signed proof on both sides (not merely the same gs). -/
theorem aggregate_comm (A B : PVSSAggregatedShare F G1 G2 Sig)
    (hdeg : A.degree = B.degree) (hnum : A.num_participants = B.num_participants)
    (hcommon : ∀ i pa pb, A.contributions.lookup i = some pa →
        B.contributions.lookup i = some pb → pa = pb) :
    A.aggregate B = B.aggregate A := by
  have hnoAB : ∀ i ∈ List.range A.num_participants,
      gsConflict A.contributions B.contributions i = false := by
    intro i _
    unfold gsConflict
    rcases ha : A.contributions.lookup i with _ | pa <;>
      rcases hb : B.contributions.lookup i with _ | pb <;> simp
    rw [hcommon i pa pb ha hb]
  have hnoBA : ∀ i ∈ List.range B.num_participants,
      gsConflict B.contributions A.contributions i = false := by
    intro i _
    unfold gsConflict
    rcases hb : B.contributions.lookup i with _ | pb <;>
      rcases ha : A.contributions.lookup i with _ | pa <;> simp
    rw [hcommon i pa pb ha hb]
  have hL : (List.range A.num_participants).filterMap
        (fun i => (mergeContrib A.contributions B.contributions i).map (fun v => (i, v)))
      = (List.range B.num_participants).filterMap
        (fun i => (mergeContrib B.contributions A.contributions i).map (fun v => (i, v))) := by
    rw [← hnum]
    refine List.filterMap_congr (fun i _ => ?_)
    have hm : mergeContrib A.contributions B.contributions i
        = mergeContrib B.contributions A.contributions i := by
      unfold mergeContrib
      rcases ha : A.contributions.lookup i with _ | pa <;>
        rcases hb : B.contributions.lookup i with _ | pb <;> simp
      have h := hcommon i pa pb ha hb
      subst h
      exact ⟨rfl, rfl⟩
    rw [hm]
  unfold PVSSAggregatedShare.aggregate
  rw [if_neg (by push_neg; exact ⟨hdeg, hnum⟩),
    if_neg (by push_neg; exact ⟨hdeg.symm, hnum.symm⟩),
    aggregateContribs_of_no_conflict _ _ _ hnoAB,
    aggregateContribs_of_no_conflict _ _ _ hnoBA, hL]
  by_cases hc : A.pvss_core.comms.length = B.pvss_core.comms.length
  · by_cases he : A.pvss_core.encs.length = B.pvss_core.encs.length
    · have hAB : A.pvss_core.aggregate B.pvss_core
          = Except.ok
              { comms := List.zipWith (· + ·) A.pvss_core.comms B.pvss_core.comms,
                encs := List.zipWith (· + ·) A.pvss_core.encs B.pvss_core.encs } := by
        unfold PVSSCore.aggregate
        rw [if_neg (by simpa using hc), if_neg (by simpa using he)]
      have hBA : B.pvss_core.aggregate A.pvss_core
          = Except.ok
              { comms := List.zipWith (· + ·) A.pvss_core.comms B.pvss_core.comms,
                encs := List.zipWith (· + ·) A.pvss_core.encs B.pvss_core.encs } := by
        unfold PVSSCore.aggregate
        rw [if_neg (by simpa using hc.symm), if_neg (by simpa using he.symm)]
        rw [List.zipWith_comm_of_comm (· + ·) add_comm B.pvss_core.comms,
          List.zipWith_comm_of_comm (· + ·) add_comm B.pvss_core.encs]
      rw [hAB, hBA, hnum, hdeg]
    · have hAB : A.pvss_core.aggregate B.pvss_core
          = Except.error (PVSSError.MismatchedEncryptionsError
              A.pvss_core.encs.length B.pvss_core.encs.length) := by
        unfold PVSSCore.aggregate
        rw [if_neg (by simpa using hc), if_pos he]
      have hBA : B.pvss_core.aggregate A.pvss_core
          = Except.error (PVSSError.MismatchedEncryptionsError
              B.pvss_core.encs.length A.pvss_core.encs.length) := by
        unfold PVSSCore.aggregate
        rw [if_neg (by simpa using hc.symm), if_pos (Ne.symm he)]
      rw [hAB, hBA]
  · have hAB : A.pvss_core.aggregate B.pvss_core
        = Except.error (PVSSError.MismatchedCommitmentsError
            A.pvss_core.comms.length B.pvss_core.comms.length) := by
      unfold PVSSCore.aggregate
      rw [if_pos hc]
    have hBA : B.pvss_core.aggregate A.pvss_core
        = Except.error (PVSSError.MismatchedCommitmentsError
            B.pvss_core.comms.length A.pvss_core.comms.length) := by
      unfold PVSSCore.aggregate
      rw [if_pos (Ne.symm hc)]
    rw [hAB, hBA]

end ShareClaims

/-! ### Concrete aggregated shares for counterexamples and witnesses -/

/-- A signed proof with gs = 0 and signature tag 1 (signatures are opaque
    byte strings in the source; Nat stands in for them). -/
def cexProofA : SignedProof (ZMod 5) (ZMod 5) Nat :=
  { decomp_proof := { proof := (0, 0, 0), gs := 0 }, signature_on_decomp := 1 }

/-- A signed proof with the same gs = 0 but a different signature tag 2. -/
def cexProofB : SignedProof (ZMod 5) (ZMod 5) Nat :=
  { decomp_proof := { proof := (0, 0, 0), gs := 0 }, signature_on_decomp := 2 }

/-- A length-1 core of zero group elements. -/
def cexCore : PVSSCore (ZMod 5) (ZMod 5) := { comms := [0], encs := [0] }

/-- Aggregated share (n = 1, t = 0) whose only contribution is id 0 with
    cexProofA. -/
def cexShareA : PVSSAggregatedShare (ZMod 5) (ZMod 5) (ZMod 5) Nat :=
  { num_participants := 1, degree := 0, pvss_core := cexCore,
    contributions := [(0, cexProofA)] }

/-- Aggregated share (n = 1, t = 0) whose only contribution is id 0 with
    cexProofB: same gs as cexShareA's entry, different signature. -/
def cexShareB : PVSSAggregatedShare (ZMod 5) (ZMod 5) (ZMod 5) Nat :=
  { num_participants := 1, degree := 0, pvss_core := cexCore,
    contributions := [(0, cexProofB)] }

/-- Aggregated share (n = 1, t = 0) with no contributions. -/
def cexShareEmpty : PVSSAggregatedShare (ZMod 5) (ZMod 5) (ZMod 5) Nat :=
  { num_participants := 1, degree := 0, pvss_core := cexCore,
    contributions := [] }

/-- Aggregated share (n = 1, t = 0) whose only contribution sits at id 1,
    which is not below num_participants. -/
def cexShareBigId : PVSSAggregatedShare (ZMod 5) (ZMod 5) (ZMod 5) Nat :=
  { num_participants := 1, degree := 0, pvss_core := cexCore,
    contributions := [(1, cexProofA)] }

/-- The aggregated share keeping cexProofA at id 0 (A's side of the merge). -/
def cexResultA : PVSSAggregatedShare (ZMod 5) (ZMod 5) (ZMod 5) Nat :=
  { num_participants := 1, degree := 0,
    pvss_core := { comms := [0], encs := [0] },
    contributions := [(0, cexProofA)] }

/-- The aggregated share keeping cexProofB at id 0 (B's side of the merge). -/
def cexResultB : PVSSAggregatedShare (ZMod 5) (ZMod 5) (ZMod 5) Nat :=
  { num_participants := 1, degree := 0,
    pvss_core := { comms := [0], encs := [0] },
    contributions := [(0, cexProofB)] }

/-- The aggregated share with no contributions left. -/
def cexResultNone : PVSSAggregatedShare (ZMod 5) (ZMod 5) (ZMod 5) Nat :=
  { num_participants := 1, degree := 0,
    pvss_core := { comms := [0], encs := [0] },
    contributions := [] }

/-- C5 counterexample: two aggregated shares under the same (t, n), both
    carrying id 0 with the same gs but different signatures.  Both
    aggregation orders succeed, but A.aggregate(B) keeps A's signed proof
    while B.aggregate(A) keeps B's, so the results differ. -/
theorem aggregate_not_commutative_cex :
    cexShareA.aggregate cexShareB = some (Except.ok cexResultA)
    ∧ cexShareB.aggregate cexShareA = some (Except.ok cexResultB)
    ∧ cexResultA ≠ cexResultB := ⟨rfl, rfl, by decide⟩

/-- C6 counterexample: the aggregate loop only visits ids 0..n, so a
    contribution at id 1 with n = 1 is silently dropped: it is present in A
    but absent from the successful result's contributions map. -/
theorem aggregate_drops_large_id_cex :
    cexShareBigId.contributions.lookup 1 = some cexProofA
    ∧ cexShareBigId.aggregate cexShareEmpty = some (Except.ok cexResultNone)
    ∧ cexResultNone.contributions.lookup 1 = none := ⟨rfl, rfl, rfl⟩

/-- C2 witness: the homomorphism applied to the concrete disjoint pair
    (cexShareA, cexShareEmpty). -/
theorem aggregate_homomorphism_witness :
    ∃ R, cexShareA.aggregate cexShareEmpty = some (Except.ok R)
      ∧ R.pvss_core.comms
          = List.zipWith (· + ·) cexShareA.pvss_core.comms cexShareEmpty.pvss_core.comms
      ∧ R.pvss_core.encs
          = List.zipWith (· + ·) cexShareA.pvss_core.encs cexShareEmpty.pvss_core.encs
      ∧ ∀ i, i < cexShareA.num_participants →
          contribWeight R.contributions i
            = contribWeight cexShareA.contributions i
              + contribWeight cexShareEmpty.contributions i :=
  aggregate_homomorphism cexShareA cexShareEmpty rfl rfl
    (fun _ _ h2 => nomatch h2) rfl rfl

/-- C4 witness: the success conjunct applied to the concrete pair
    (cexShareA, cexShareB), which share id 0 with equal gs. -/
theorem aggregate_common_id_gs_witness :
    cexResultA.contributions.lookup 0 = some cexProofA :=
  (aggregate_common_id_gs cexShareA cexShareB 0 cexProofA cexProofB
      (by decide) rfl rfl rfl rfl).2 cexResultA rfl

/-- C6 witness: the amended statement applied to the concrete pair
    (cexShareA, cexShareEmpty) at id 0, whose sole entry is carried over. -/
theorem aggregate_keeps_ids_below_n_witness :
    cexResultA.contributions.lookup 0 = some cexProofA :=
  aggregate_keeps_ids_below_n cexShareA cexShareEmpty cexResultA 0 (by decide) rfl

/-- C5 witness: commutativity applied to the concrete pair
    (cexShareA, cexShareEmpty), whose common-id condition holds vacuously. -/
theorem aggregate_comm_witness :
    cexShareA.aggregate cexShareEmpty = cexShareEmpty.aggregate cexShareA :=
  aggregate_comm cexShareA cexShareEmpty rfl rfl
    (fun _ _ _ _ hb => nomatch hb)

/-! ### Claim C3: the dual-code test of ensure_degree -/

section C3

variable {F : Type} [Field F] [DecidableEq F]
variable {G : Type} [AddCommGroup G] [Module F G] [DecidableEq G]

/-- The dual-code weight named by the claim:
    w_i = f(i) times the product over j in [1, n], j different from i, of
    (i - j)^{-1} (inner index written as j + 1 with j ranging over 0..n). -/
def dualCodeWeight (f : List F) (n i : Nat) : F :=
  evalPoly f (i : F)
    * ∏ j ∈ (Finset.range n).filter (fun j => i ≠ j + 1),
        ((i : F) - ((j + 1 : Nat) : F))⁻¹

/-- The weighted sum Σ w_i · C_i over the commitment vector that
    ensure_degree compares against the identity. -/
def dualCodeSum (f : List F) (evals : List G) : G :=
  ∑ i ∈ Finset.range evals.length,
    dualCodeWeight f evals.length (i + 1) • evals.getD i 0

theorem dualWeightLoop_eq (f : List F) (num i : Nat)
    (hnz : ∀ j ∈ List.range num, i ≠ j + 1 → ((i : F) - ((j + 1 : Nat) : F)) ≠ 0) :
    dualWeightLoop f num i = some (dualCodeWeight f num i) := by
  have hstep : ∀ (a : F) (j : Nat), j ∈ List.range num →
      (if i ≠ j + 1 then
        (invOpt ((i : F) - ((j + 1 : Nat) : F))).map (fun w => a * w)
      else some a)
      = some (if i ≠ j + 1 then a * ((i : F) - ((j + 1 : Nat) : F))⁻¹ else a) := by
    intro a j hj
    by_cases hij : i ≠ j + 1
    · rw [if_pos hij, if_pos hij, invOpt, if_neg (hnz j hj hij), Option.map_some']
    · rw [if_neg hij, if_neg hij]
  unfold dualWeightLoop
  rw [foldlM_eq_foldl_of_some _ _ _ hstep,
    foldl_ite_mul_range (fun j => i ≠ j + 1)
      (fun j => ((i : F) - ((j + 1 : Nat) : F))⁻¹) num (evalPoly f (i : F))]
  rfl

theorem ensure_degree_eval (f : List F) (evals : List G) (t : Nat)
    (hn : t + 2 ≤ evals.length)
    (hinj : ∀ a b : Nat, a ≤ evals.length → b ≤ evals.length →
      ((a : Nat) : F) = ((b : Nat) : F) → a = b) :
    ensure_degree f evals t
      = some (if dualCodeSum f evals = 0 then Except.ok ()
          else Except.error PVSSError.DualCodeError) := by
  have hnz : ∀ i ∈ List.range evals.length,
      ∀ j ∈ List.range evals.length, i + 1 ≠ j + 1 →
        (((i + 1 : Nat) : F) - ((j + 1 : Nat) : F)) ≠ 0 := by
    intro i hi j hj hij hzero
    have hi' : i < evals.length := List.mem_range.mp hi
    have hj' : j < evals.length := List.mem_range.mp hj
    have := hinj (i + 1) (j + 1) (by omega) (by omega) (sub_eq_zero.mp hzero)
    omega
  have hstep : ∀ (sum : G) (i : Nat), i ∈ List.range evals.length →
      ((dualWeightLoop f evals.length (i + 1)).map
        (fun c => sum + c • evals.getD i 0))
      = some (sum + dualCodeWeight f evals.length (i + 1) • evals.getD i 0) := by
    intro sum i hi
    rw [dualWeightLoop_eq f evals.length (i + 1)
      (fun j hj hij => hnz i hi j hj hij), Option.map_some']
  unfold ensure_degree
  rw [if_neg (by omega), if_neg (by omega),
    foldlM_eq_foldl_of_some _ _ _ hstep,
    foldl_add_range
      (fun i => dualCodeWeight f evals.length (i + 1) • evals.getD i 0)
      evals.length 0, zero_add]
  rfl

/-- C3: for a commitment vector of n points and degree t, with t + 2 not
    exceeding n (so the sampled dual polynomial degree n - t - 2 exists) and
    the points 1..n distinct in the scalar field, ensure_degree with sampled
    polynomial f returns Ok exactly when Σ w_i · C_i vanishes, where
    w_i = f(i) · ∏ over j in [1,n] different from i of (i - j)^{-1}, and
    returns DualCodeError exactly when that sum is nonzero. -/
theorem ensure_degree_dual_code (f : List F) (evals : List G) (t : Nat)
    (hf : f.length = evals.length - t - 1)
    (hn : t + 2 ≤ evals.length)
    (hinj : ∀ a b : Nat, a ≤ evals.length → b ≤ evals.length →
      ((a : Nat) : F) = ((b : Nat) : F) → a = b) :
    (ensure_degree f evals t = some (Except.ok ()) ↔ dualCodeSum f evals = 0)
    ∧ (ensure_degree f evals t = some (Except.error PVSSError.DualCodeError)
        ↔ dualCodeSum f evals ≠ 0) := by
  rw [ensure_degree_eval f evals t hn hinj]
  by_cases hz : dualCodeSum f evals = 0
  · rw [if_pos hz]
    refine ⟨⟨fun _ => hz, fun _ => rfl⟩, ⟨fun h => ?_, fun h => absurd hz h⟩⟩
    exact Except.noConfusion (Option.some.inj h)
  · rw [if_neg hz]
    refine ⟨⟨fun h => ?_, fun h => absurd h hz⟩, ⟨fun _ => hz, fun _ => rfl⟩⟩
    exact Except.noConfusion (Option.some.inj h)

/-- C3 witness: the dual-code characterization applied at a concrete input
    (three zero commitments, degree 1, constant dual polynomial). -/
theorem ensure_degree_dual_code_witness :
    ensure_degree (F := ZMod 5) (G := ZMod 5) [1] [0, 0, 0] 1
      = some (Except.ok ()) :=
  (ensure_degree_dual_code [1] [0, 0, 0] 1 (by decide) (by decide)
      (fun a b ha hb h => by
        have ha' : a ≤ 3 := ha
        have hb' : b ≤ 3 := hb
        have hmod := (ZMod.natCast_eq_natCast_iff a b 5).mp h
        unfold Nat.ModEq at hmod
        omega)).1.mpr (by decide)

end C3

/-! ### Claim C9: correctness of lagrange_interpolation_simple -/

section C9

variable {F : Type} [Field F] [DecidableEq F]
variable {G : Type} [AddCommGroup G] [Module F G] [DecidableEq G]

/-- The polynomial with the given coefficient list, lowest coefficient
    first (the mathematical reading of a dense coefficient vector; proof-side
    only, Mathlib polynomials carry no executable code). -/
noncomputable def toPoly : List F → Polynomial F
  | [] => 0
  | a :: as => Polynomial.C a + Polynomial.X * toPoly as

theorem evalPoly_eq_eval (p : List F) (x : F) :
    evalPoly p x = (toPoly p).eval x := by
  induction p with
  | nil => simp [evalPoly, toPoly]
  | cons a as ih =>
      simp only [evalPoly, List.foldr_cons, toPoly, Polynomial.eval_add,
        Polynomial.eval_C, Polynomial.eval_mul, Polynomial.eval_X]
      rw [← ih]
      rfl

theorem coeff_toPoly (p : List F) : ∀ (m : Nat), (toPoly p).coeff m = p.getD m 0 := by
  induction p with
  | nil => intro m; simp [toPoly]
  | cons a as ih =>
      intro m
      cases m with
      | zero =>
          simp [toPoly, Polynomial.coeff_add, Polynomial.coeff_C_zero,
            Polynomial.mul_coeff_zero, Polynomial.coeff_X_zero]
      | succ m =>
          simp [toPoly, Polynomial.coeff_add, Polynomial.coeff_C,
            Polynomial.coeff_X_mul, ih m]

theorem degree_toPoly_lt (p : List F) (n : Nat) (h : p.length ≤ n) :
    (toPoly p).degree < (n : Nat) := by
  rw [Polynomial.degree_lt_iff_coeff_zero]
  intro m hm
  rw [coeff_toPoly]
  exact List.getD_eq_default p 0 (by omega)

/-- The Lagrange recovery identity at x = 0 for the fixed nodes 1..t+1, in
    the form the code computes: the coefficient of evaluation j is the
    product of x_k * (x_k - x_j)^{-1} over k different from j. -/
theorem lagrange_sum_eval_zero (p : List F) (t : Nat)
    (hp : p.length ≤ t + 1)
    (hvs : Set.InjOn (fun j : Nat => ((j + 1 : Nat) : F)) (Finset.range (t + 1))) :
    ∑ j ∈ Finset.range (t + 1),
        (∏ k ∈ (Finset.range (t + 1)).filter (fun k => j ≠ k),
          (((k + 1 : Nat) : F) * (((k + 1 : Nat) : F) - ((j + 1 : Nat) : F))⁻¹))
        * evalPoly p ((j + 1 : Nat) : F)
      = evalPoly p 0 := by
  classical
  have hdeg : (toPoly p).degree < ((Finset.range (t + 1)).card : Nat) := by
    rw [Finset.card_range]
    exact degree_toPoly_lt p (t + 1) hp
  have hinterp := Lagrange.eq_interpolate (f := toPoly p) hvs hdeg
  have h0 : (toPoly p).eval 0
      = ∑ j ∈ Finset.range (t + 1),
          (toPoly p).eval ((j + 1 : Nat) : F)
            * (Lagrange.basis (Finset.range (t + 1))
                (fun j : Nat => ((j + 1 : Nat) : F)) j).eval 0 := by
    conv_lhs => rw [hinterp]
    rw [Lagrange.interpolate_apply, Polynomial.eval_finset_sum]
    refine Finset.sum_congr rfl (fun j _ => ?_)
    rw [Polynomial.eval_mul, Polynomial.eval_C]
  have hbasis : ∀ j, (Lagrange.basis (Finset.range (t + 1))
        (fun j : Nat => ((j + 1 : Nat) : F)) j).eval 0
      = ∏ k ∈ (Finset.range (t + 1)).filter (fun k => j ≠ k),
          (((k + 1 : Nat) : F) * (((k + 1 : Nat) : F) - ((j + 1 : Nat) : F))⁻¹) := by
    intro j
    rw [Finset.filter_ne, Lagrange.basis, Polynomial.eval_prod]
    refine Finset.prod_congr rfl (fun k _ => ?_)
    rw [Lagrange.basisDivisor, Polynomial.eval_mul, Polynomial.eval_C,
      Polynomial.eval_sub, Polynomial.eval_X, Polynomial.eval_C, zero_sub,
      ← neg_sub ((k + 1 : Nat) : F) ((j + 1 : Nat) : F), inv_neg]
    ring
  rw [evalPoly_eq_eval, h0]
  refine Finset.sum_congr rfl (fun j _ => ?_)
  rw [hbasis j, evalPoly_eq_eval, mul_comm]

/-- C9: for every coefficient list p of degree at most t and every vector of
    at least t+1 evaluations whose entry j (for j up to t) is the group lift
    of p evaluated at j+1, lagrange_interpolation_simple recovers the group
    lift of p evaluated at 0 (the nodes 1..t+1 being distinct in the scalar
    field). -/
theorem lagrange_interpolation_simple_correct (p : List F) (g : G) (t : Nat)
    (evals : List G)
    (hp : p.length ≤ t + 1)
    (hlen : t + 1 ≤ evals.length)
    (hev : ∀ j, j < t + 1 → evals.getD j 0 = evalPoly p ((j + 1 : Nat) : F) • g)
    (hinj : ∀ a b : Nat, a ≤ t + 1 → b ≤ t + 1 →
      ((a : Nat) : F) = ((b : Nat) : F) → a = b) :
    lagrange_interpolation_simple (F := F) evals t
      = some (Except.ok (evalPoly p 0 • g)) := by
  have hvs : Set.InjOn (fun j : Nat => ((j + 1 : Nat) : F)) (Finset.range (t + 1)) := by
    intro a ha b hb h
    have ha' : a < t + 1 := by simpa using ha
    have hb' : b < t + 1 := by simpa using hb
    have := hinj (a + 1) (b + 1) (by omega) (by omega) h
    omega
  have hcoeff : ∀ j ∈ List.range (t + 1), simpleCoeffLoop F t j
      = some (∏ k ∈ (Finset.range (t + 1)).filter (fun k => j ≠ k),
          (((k + 1 : Nat) : F) * (((k + 1 : Nat) : F) - ((j + 1 : Nat) : F))⁻¹)) := by
    intro j hj
    have hstep : ∀ (a : F) (k : Nat), k ∈ List.range (t + 1) →
        (if j ≠ k then
          (invOpt (((k + 1 : Nat) : F) - ((j + 1 : Nat) : F))).map
            (fun w => a * (((k + 1 : Nat) : F) * w))
        else some a)
        = some (if j ≠ k then
            a * (((k + 1 : Nat) : F) * (((k + 1 : Nat) : F) - ((j + 1 : Nat) : F))⁻¹)
          else a) := by
      intro a k hk
      by_cases hjk : j ≠ k
      · have hne : (((k + 1 : Nat) : F) - ((j + 1 : Nat) : F)) ≠ 0 := by
          intro hzero
          have hk' : k < t + 1 := List.mem_range.mp hk
          have hj' : j < t + 1 := List.mem_range.mp hj
          have := hinj (k + 1) (j + 1) (by omega) (by omega) (sub_eq_zero.mp hzero)
          omega
        rw [if_pos hjk, if_pos hjk, invOpt, if_neg hne, Option.map_some']
      · rw [if_neg hjk, if_neg hjk]
    unfold simpleCoeffLoop
    rw [foldlM_eq_foldl_of_some _ _ _ hstep,
      foldl_ite_mul_range (fun k => j ≠ k)
        (fun k => ((k + 1 : Nat) : F) * (((k + 1 : Nat) : F) - ((j + 1 : Nat) : F))⁻¹)
        (t + 1) 1, one_mul]
  have hstep2 : ∀ (sum : G) (j : Nat), j ∈ List.range (t + 1) →
      ((simpleCoeffLoop F t j).map (fun prod => sum + prod • evals.getD j 0))
        = some (sum
            + ((∏ k ∈ (Finset.range (t + 1)).filter (fun k => j ≠ k),
                (((k + 1 : Nat) : F) * (((k + 1 : Nat) : F) - ((j + 1 : Nat) : F))⁻¹))
              * evalPoly p ((j + 1 : Nat) : F)) • g) := by
    intro sum j hj
    rw [hcoeff j hj, Option.map_some', hev j (List.mem_range.mp hj), smul_smul]
  unfold lagrange_interpolation_simple
  rw [if_neg (by omega), foldlM_eq_foldl_of_some _ _ _ hstep2,
    foldl_add_range
      (fun j => ((∏ k ∈ (Finset.range (t + 1)).filter (fun k => j ≠ k),
          (((k + 1 : Nat) : F) * (((k + 1 : Nat) : F) - ((j + 1 : Nat) : F))⁻¹))
        * evalPoly p ((j + 1 : Nat) : F)) • g)
      (t + 1) 0, zero_add, ← Finset.sum_smul,
    lagrange_sum_eval_zero p t hp hvs]

/-- C9 witness: interpolation of the lift of the polynomial 3 + x by the
    zero generator at degree 1 (two evaluations supplied). -/
theorem lagrange_interpolation_simple_correct_witness :
    lagrange_interpolation_simple (F := ZMod 5) (G := ZMod 5) [0, 0] 1
      = some (Except.ok (evalPoly [3, 1] (0 : ZMod 5) • (0 : ZMod 5))) :=
  lagrange_interpolation_simple_correct [3, 1] 0 1 [0, 0] (by decide) (by decide)
    (fun j hj => by
      rw [smul_zero]
      rcases j with _ | j
      · rfl
      · rcases j with _ | j
        · rfl
        · omega)
    (fun a b ha hb h => by
      have hmod := (ZMod.natCast_eq_natCast_iff a b 5).mp h
      unfold Nat.ModEq at hmod
      omega)

end C9
